import Mathlib

/-!
Shallow embedding of `lib/upgrade/upgrade_supported.go`, the syncthing
self-upgrade pipeline: release discovery and selection, bounded archive
extraction, name-bound signature verification and the on-disk binary swap.

Pure data (releases, assets, archive members) is modelled directly.  The
filesystem is an association list from paths to file contents.  External
primitives that live outside this source file are taken as explicit
parameters: the HTTP transport and JSON decoder as oracles, the version
comparator `CompareVersions` and the platform prefix `releaseName` as
function arguments, and `signature.Verify` with its compiled-in `SigningKey`
as a boolean oracle on the signature bytes and the verified payload.
-/

set_option autoImplicit false

namespace Upgrade

/-! ## Helpers for the Go `path` and `strings` packages -/

/-- Splits a character list on a separator character, with Go
`strings.Split` semantics for a one-character separator: the empty input
yields one empty field, and adjacent separators yield empty fields. -/
def splitOnChar (c : Char) : List Char → List (List Char)
  | [] => [[]]
  | x :: xs =>
    let r := splitOnChar c xs
    if x = c then [] :: r
    else
      match r with
      | [] => [[x]]
      | h :: t => (x :: h) :: t

/-- One element step of Go `path.Clean`: empty and `.` elements are skipped;
`..` pops the previously kept element when possible, is dropped at the root
of a rooted path, and is kept in a relative path when nothing can be
popped. -/
def cleanStep (rooted : Bool) (acc : List (List Char)) (e : List Char) : List (List Char) :=
  if e = [] ∨ e = [ '.' ] then acc
  else if e = [ '.', '.' ] then
    match acc with
    | [] => if rooted then [] else [e]
    | a :: rest => if a = [ '.', '.' ] then e :: acc else rest
  else e :: acc

/-- Whether a path starts with a slash. -/
def isRooted : List Char → Bool
  | c :: _ => c == '/'
  | [] => false

/-- Go `path.Clean`. -/
def goClean (p : String) : String :=
  if p = "" then "."
  else
    let rooted := isRooted p.data
    let stack := (splitOnChar '/' p.data).foldl (cleanStep rooted) []
    let joined := List.intercalate [ '/' ] stack.reverse
    if rooted then String.mk ( '/' :: joined)
    else if stack = [] then "." else String.mk joined

/-- Go `path.Base`: the last element of the path after trailing slashes are
removed; the empty path gives `.` and an all-slash path gives `/`. -/
def goBase (p : String) : String :=
  if p = "" then "."
  else
    let r := p.data.reverse.dropWhile (fun c => c == '/')
    if r = [] then "/"
    else String.mk ((r.takeWhile (fun c => c != '/')).reverse)

/-- Go `path.Dir`: everything up to and including the final slash, then
`Clean`ed; a slash-free path gives `.`. -/
def goDir (p : String) : String :=
  goClean (String.mk ((p.data.reverse.dropWhile (fun c => c != '/')).reverse))

/-- Go `strings.HasPrefix s pre`. -/
def strStartsWith (s pre : String) : Bool := pre.data.isPrefixOf s.data

/-- Go `strings.Contains version "-"`; the probe is a single character. -/
def containsDash (v : String) : Bool := v.data.contains '-'

/-- Contents read through `io.LimitReader(r, n)`: at most the first `n`
bytes of the stream. -/
def strTake (s : String) (n : Nat) : String := String.mk (s.data.take n)

/-- Last character of a string.  Temp-file names end in a digit while `.old`
backup names end in the letter `d`, which keeps the two namespaces apart. -/
def lastChar (s : String) : Option Char := s.data.getLast?

/-! ## Constants (upgrade_supported.go:36) -/

/-- Largest accepted binary member, 64 MiB. -/
def maxBinarySize : Nat := 64 <<< 20

/-- Largest accepted signature file, 1 KiB. -/
def maxSignatureSize : Nat := 1 <<< 10

/-- Cap on the downloaded archive, equal to `maxBinarySize`. -/
def maxArchiveSize : Nat := maxBinarySize

/-- Number of archive members searched before giving up. -/
def maxArchiveMembers : Nat := 100

/-- Cap on the release metadata body, 100 KiB. -/
def maxMetadataSize : Nat := 100 <<< 10

/-! ## Data model -/

/-- One downloadable file attached to a release. -/
structure Asset where
  name : String
  url : String
deriving DecidableEq

/-- A published release record. -/
structure Release where
  tag : String
  prerelease : Bool
  assets : List Asset
deriving DecidableEq

/-- One archive member: its path inside the archive, its declared size
(`hdr.Size` in tar, `UncompressedSize64` in zip) and its content bytes. -/
structure Member where
  path : String
  size : Nat
  content : String
deriving DecidableEq

/-- The error values produced by the pipeline.  The first five correspond to
`ErrNoVersionToSelect`, `ErrNoReleaseDownload` and the three errors built in
`verifyUpgrade` and `signature.Verify`; the last two stand for propagated
`os.Rename` and `os.Open` failures. -/
inductive UpgradeError where
  | NoVersionToSelect
  | NoReleaseDownload
  | NoUpgradeFound
  | NoSignatureFound
  | SignatureInvalid
  | RenameError (src dst : String)
  | OpenError (p : String)
deriving DecidableEq

/-- Propositional equality on `Except` values is decidable when it is so on
both components; used to evaluate closed claims about pipeline results. -/
instance {ε α : Type} [DecidableEq ε] [DecidableEq α] : DecidableEq (Except ε α) := fun x y =>
  match x, y with
  | .ok a, .ok b =>
    if h : a = b then isTrue (by rw [h]) else isFalse (fun he => by cases he; exact h rfl)
  | .error a, .error b =>
    if h : a = b then isTrue (by rw [h]) else isFalse (fun he => by cases he; exact h rfl)
  | .ok _, .error _ => isFalse (fun he => by cases he)
  | .error _, .ok _ => isFalse (fun he => by cases he)

/-! ## Filesystem model -/

/-- The filesystem: an association list from paths to file contents; earlier
entries shadow later ones. -/
abbrev FS := List (String × String)

/-- Content of the file at path `p`, when present. -/
def fsGet : FS → String → Option String
  | [], _ => none
  | (k, v) :: rest, p => if k = p then some v else fsGet rest p

/-- Create or overwrite the file at path `p`. -/
def fsSet (fs : FS) (p c : String) : FS := (p, c) :: fs

/-- Model of `os.Remove p` with the error ignored: afterwards no entry for
`p` remains. -/
def fsRemove : FS → String → FS
  | [], _ => []
  | (k, v) :: rest, p => if k = p then fsRemove rest p else (k, v) :: fsRemove rest p

/-- Length of the longest path stored in the filesystem. -/
def maxPathLen : FS → Nat
  | [] => 0
  | (k, _) :: rest => max k.length (maxPathLen rest)

/-- Model of `ioutil.TempFile(dir, "syncthing")`: a fresh path of the form
`dir/syncthing<digits>` that does not yet exist.  Freshness is realised
deterministically by making the digit suffix longer than every path
currently on disk. -/
def freshTempName (fs : FS) (dir : String) : String :=
  dir ++ "/syncthing" ++ String.mk (List.replicate (maxPathLen fs + 1) '0')

/-- Model of `writeBinary` (upgrade_supported.go:371): stream the bounded
member content to a fresh temp file in `dir`.  The 0755 mode bits are not
modelled. -/
def writeBinary (dir : String) (content : String) (fs : FS) : String × FS :=
  let fname := freshTempName fs dir
  (fname, fsSet fs fname content)

/-! ## Release catalog -/

/-- Model of `FetchLatestReleases` (upgrade_supported.go:79).  The HTTP
transport is the oracle `resp`, where `none` is a transport error and
otherwise the pair carries the status code and the body.  JSON decoding is
the oracle `decode`, standing for `json.Decoder.Decode(&rels)` on the
bounded body: it returns encoding/json's best-effort outcome — a flag
reporting whether `Decode` returned an error, together with whatever the
unmarshaling left in `rels` (the zero value `[]` when nothing was
populated, but possibly non-empty elements on a type error, per
encoding/json's documented best-effort contract).  The Go code discards
the error and returns `rels` as-is, so the flag is ignored here; only
transport errors and statuses above 299 return early with `nil`. -/
def FetchLatestReleases (decode : String → Bool × List Release) (resp : Option (Nat × String)) : List Release :=
  match resp with
  | none => []
  | some r =>
    if 299 < r.1 then []
    else (decode (strTake r.2 maxMetadataSize)).2

/-- A release is accepted by the selection scan when it is not a skipped
prerelease and some asset base name starts with the expected platform
prefix computed from its tag. -/
def eligMatch (relName : String → String) (beta : Bool) (rel : Release) : Bool :=
  !(rel.prerelease && !beta) && rel.assets.any (fun a => strStartsWith (goBase a.name) (relName rel.tag))

/-- The scan loop of `SelectLatestRelease` (upgrade_supported.go:123): walk
the sorted releases, skip prereleases unless `beta` is set, and return the
first release one of whose assets' base names has the expected prefix. -/
def selectScan (relName : String → String) (beta : Bool) : List Release → Except UpgradeError Release
  | [] => .error .NoReleaseDownload
  | rel :: rest =>
    if rel.prerelease && !beta then selectScan relName beta rest
    else if rel.assets.any (fun a => strStartsWith (goBase a.name) (relName rel.tag)) then .ok rel
    else selectScan relName beta rest

/-- Model of `SelectLatestRelease` (upgrade_supported.go:114).  `sort.Sort`
mutates the caller's slice in place, so the second component of the result
is the caller-visible state of that slice after the call.  `sortFn`
abstracts `sort.Sort(SortByRelease rels)` and `relName` abstracts
`releaseName`, both defined outside this file. -/
def SelectLatestRelease (relName : String → String) (sortFn : List Release → List Release) (version : String) (rels : List Release) : Except UpgradeError Release × List Release :=
  match rels with
  | [] => (.error .NoVersionToSelect, rels)
  | _ :: _ =>
    let srels := sortFn rels
    (selectScan relName (containsDash version) srels, srels)

/-! ## Archive extractor -/

/-- Model of `archiveFileVisitor` (upgrade_supported.go:303).  Returns the
new `(tempFile, signature)` output slots together with the filesystem.  A
member named `syncthing` or `syncthing.exe` is skipped when its containing
directory splits into more than one slash-separated component; otherwise
its bounded content is written to a fresh temp file.  A member named
`release.sig` has its bounded content stored in memory. -/
def archiveFileVisitor (dir temp : String) (sig : Option String) (m : Member) (fs : FS) : String × Option String × FS :=
  let filename := goBase m.path
  let archiveDir := goDir m.path
  if filename = "syncthing" ∨ filename = "syncthing.exe" then
    if 1 < (splitOnChar '/' archiveDir.data).length then (temp, sig, fs)
    else
      let w := writeBinary dir (strTake m.content maxBinarySize) fs
      (w.1, sig, w.2)
  else if filename = "release.sig" then
    (temp, some (strTake m.content maxSignatureSize), fs)
  else (temp, sig, fs)

/-- The member loop shared by `readTarGz` (upgrade_supported.go:212) and
`readZip` (upgrade_supported.go:264): stop once the member cap is reached,
stop at the first member whose declared size exceeds `maxBinarySize`, visit
each remaining member in order, and stop as soon as both the binary and the
signature have been found. -/
def scanMembers (dir : String) (ms : List Member) (i : Nat) (temp : String) (sig : Option String) (fs : FS) : String × Option String × FS :=
  if maxArchiveMembers ≤ i then (temp, sig, fs)
  else
    match ms with
    | [] => (temp, sig, fs)
    | m :: rest =>
      if maxBinarySize < m.size then (temp, sig, fs)
      else
        match archiveFileVisitor dir temp sig m fs with
        | (temp', sig', fs') =>
          if temp' ≠ "" ∧ sig'.isSome then (temp', sig', fs')
          else scanMembers dir rest (i + 1) temp' sig' fs'

/-! ## Signature verifier -/

/-- Model of `verifyUpgrade` (upgrade_supported.go:333).  `verify` abstracts
`signature.Verify SigningKey`: it receives the signature bytes and the full
payload that the Go code presents through an `io.MultiReader`, namely the
archive name, a newline, then the temp binary contents, and returns `true`
exactly when the primitive reports success.  On a failed check the temp
binary is deleted. -/
def verifyUpgrade (verify : String → String → Bool) (archiveName tempName : String) (sig : Option String) (fs : FS) : Except UpgradeError Unit × FS :=
  if tempName = "" then (.error .NoUpgradeFound, fs)
  else
    match sig with
    | none => (.error .NoSignatureFound, fs)
    | some s =>
      match fsGet fs tempName with
      | none => (.error (.OpenError tempName), fs)
      | some content =>
        if verify s (archiveName ++ "\n" ++ content) then (.ok (), fs)
        else (.error .SignatureInvalid, fsRemove fs tempName)

/-- Model of `readTarGz` (upgrade_supported.go:200): scan the decompressed
member stream, then verify.  Container parsing by `compress/gzip` and
`archive/tar` is abstracted: the archive is given as its member list. -/
def readTarGz (verify : String → String → Bool) (archiveName dir : String) (members : List Member) (fs : FS) : Except UpgradeError String × FS :=
  match scanMembers dir members 0 "" none fs with
  | (tempName, sig, fs') =>
    match verifyUpgrade verify archiveName tempName sig fs' with
    | (.ok _, fs'') => (.ok tempName, fs'')
    | (.error e, fs'') => (.error e, fs'')

/-- Model of `readZip` (upgrade_supported.go:250): identical
member-selection semantics over the zip member list; `archive/zip` parsing
of the in-memory body is abstracted in the same way. -/
def readZip (verify : String → String → Bool) (archiveName dir : String) (members : List Member) (fs : FS) : Except UpgradeError String × FS :=
  match scanMembers dir members 0 "" none fs with
  | (tempName, sig, fs') =>
    match verifyUpgrade verify archiveName tempName sig fs' with
    | (.ok _, fs'') => (.ok tempName, fs'')
    | (.error e, fs'') => (.error e, fs'')

/-- Model of `readRelease` (upgrade_supported.go:177): the bounded download
is abstracted into the member list; dispatch on the host platform picks the
zip reader on windows and the tar.gz reader elsewhere. -/
def readRelease (verify : String → String → Bool) (goos archiveName dir : String) (members : List Member) (fs : FS) : Except UpgradeError String × FS :=
  if goos = "windows" then readZip verify archiveName dir members fs
  else readTarGz verify archiveName dir members fs

/-! ## Installer -/

/-- Model of `os.Rename`: `renameFail` is an environment oracle for renames
that fail for external reasons; renaming a missing source also fails. -/
def osRename (renameFail : String → String → Bool) (fs : FS) (src dst : String) : Except UpgradeError FS :=
  if renameFail src dst then .error (.RenameError src dst)
  else
    match fsGet fs src with
    | none => .error (.RenameError src dst)
    | some c => .ok (fsSet (fsRemove fs src) dst c)

/-- Model of `upgradeToURL` (upgrade_supported.go:158): extract and verify,
then delete any stale backup at `binary ++ ".old"` ignoring the outcome,
rename the current binary to the backup path, and finally rename the
verified temp binary into place. -/
def upgradeToURL (verify renameFail : String → String → Bool) (goos archiveName binary : String) (members : List Member) (fs : FS) : Except UpgradeError Unit × FS :=
  match readRelease verify goos archiveName (goDir binary) members fs with
  | (.error e, fs') => (.error e, fs')
  | (.ok fname, fs') =>
    let old := binary ++ ".old"
    let fs1 := fsRemove fs' old
    match osRename renameFail fs1 binary old with
    | .error e => (.error e, fs1)
    | .ok fs2 =>
      match osRename renameFail fs2 fname binary with
      | .error e => (.error e, fs2)
      | .ok fs3 => (.ok (), fs3)

/-! ## Concrete fixtures used to instantiate the theorems -/

/-- Constant comparator: every pair of versions compares equal.  It
satisfies the total-order contract laws used as hypotheses. -/
def cmpZero : String → String → Int := fun _ _ => 0

/-- Expected-prefix function that uses the tag itself as prefix. -/
def relNameId : String → String := fun tag => tag

/-- Fixture: a stable release with one matching asset. -/
def relA : Release := ⟨ "v2", false, [⟨ "v2-linux.tar.gz", "u"⟩]⟩

/-- Fixture: a prerelease with no assets. -/
def relB : Release := ⟨ "v1", true, []⟩

/-- Fixture: the zero-valued release record, as encoding/json leaves an
element it could not unmarshal. -/
def relZero : Release := ⟨ "", false, []⟩

/-- Fixture: a decode oracle behaving like `json.Decoder.Decode(&rels)` on
the body `[1]` — the array has one element, `1` does not unmarshal into a
release record, so `Decode` returns an error (flag `true`) after
best-effort populating `rels` with one zero-valued element. -/
def decodeFailsPartial : String → Bool × List Release := fun _ => (true, [relZero])

/-! ## Invariants relating filesystems across extraction -/

/-- Relation between the filesystem before extraction and a filesystem
reached during it: files that existed before are untouched, every changed
path is a newly created temp file (its name ends in the digit `0` and did
not exist before), and the longest-path bound has not decreased. -/
def FsGrow (fs₀ fs : FS) : Prop :=
  (∀ p c, fsGet fs₀ p = some c → fsGet fs p = some c) ∧
  (∀ p, fsGet fs p ≠ fsGet fs₀ p → lastChar p = some '0' ∧ fsGet fs₀ p = none) ∧
  maxPathLen fs₀ ≤ maxPathLen fs

/-- Facts about a non-empty temp-file slot during extraction: its name ends
in the digit `0`, did not exist before extraction, is longer than every
pre-existing path, and currently exists on disk. -/
def TempOk (fs₀ fs : FS) (t : String) : Prop :=
  lastChar t = some '0' ∧ fsGet fs₀ t = none ∧ maxPathLen fs₀ < t.length ∧
    (fsGet fs t).isSome = true

/-- Invariant carried by the extraction scan over its `(temp, sig, fs)`
state, relative to the filesystem `fs₀` extraction started from. -/
def ScanInv (fs₀ : FS) (out : String × Option String × FS) : Prop :=
  FsGrow fs₀ out.2.2 ∧ (out.1 = "" ∨ TempOk fs₀ out.2.2 out.1)

/-- Specification of an archive reader's result relative to the filesystem
it started from: pre-existing files are untouched, changed paths are temp
files, and a returned temp name is a fresh, still existing temp file. -/
def ReadOut (fs₀ : FS) (out : Except UpgradeError String × FS) : Prop :=
  (∀ p c, fsGet fs₀ p = some c → fsGet out.2 p = some c) ∧
  (∀ p, fsGet out.2 p ≠ fsGet fs₀ p → lastChar p = some '0' ∧ fsGet fs₀ p = none) ∧
  (∀ fname, out.1 = .ok fname → lastChar fname = some '0' ∧ fsGet fs₀ fname = none ∧
    (fsGet out.2 fname).isSome = true)

/-! ## Sanity checks for the path helpers -/

theorem goBase_nested : goBase "subdir/syncthing" = "syncthing" := by decide

theorem goDir_nested : goDir "subdir/syncthing" = "subdir" := by decide

theorem goDir_flat : goDir "syncthing" = "." := by decide

theorem goDir_two_deep : goDir "a/b/syncthing" = "a/b" := by decide

/-! ## Filesystem lemmas -/

theorem fsGet_fsSet_self (fs : FS) (p c : String) : fsGet (fsSet fs p c) p = some c := by
  simp [fsSet, fsGet]

theorem fsGet_fsSet_ne (fs : FS) (p c q : String) (h : p ≠ q) :
    fsGet (fsSet fs p c) q = fsGet fs q := by
  simp [fsSet, fsGet, h]

theorem fsGet_fsRemove_self (p : String) : ∀ fs : FS, fsGet (fsRemove fs p) p = none := by
  intro fs
  induction fs with
  | nil => rfl
  | cons kv rest ih =>
    obtain ⟨k, v⟩ := kv
    by_cases hk : k = p
    · simp [fsRemove, hk, ih]
    · simp [fsRemove, hk, fsGet, ih]

theorem fsGet_fsRemove_ne (p q : String) (h : q ≠ p) :
    ∀ fs : FS, fsGet (fsRemove fs p) q = fsGet fs q := by
  intro fs
  induction fs with
  | nil => rfl
  | cons kv rest ih =>
    obtain ⟨k, v⟩ := kv
    by_cases hk : k = p
    · subst hk
      have e1 : fsRemove ((k, v) :: rest) k = fsRemove rest k := by
        rw [fsRemove, if_pos rfl]
      rw [e1, ih, fsGet, if_neg (fun hh : k = q => h hh.symm)]
    · have e1 : fsRemove ((k, v) :: rest) p = (k, v) :: fsRemove rest p := by
        rw [fsRemove, if_neg hk]
      rw [e1, fsGet, ih, fsGet]

theorem fsGet_le_maxPathLen : ∀ (fs : FS) (p c : String),
    fsGet fs p = some c → p.length ≤ maxPathLen fs := by
  intro fs
  induction fs with
  | nil => intro p c h; simp [fsGet] at h
  | cons kv rest ih =>
    intro p c h
    obtain ⟨k, v⟩ := kv
    by_cases hk : k = p
    · subst hk
      exact le_max_left _ _
    · rw [fsGet, if_neg hk] at h
      exact le_trans (ih p c h) (le_max_right _ _)

theorem maxPathLen_lt_freshTempName (fs : FS) (dir : String) :
    maxPathLen fs < (freshTempName fs dir).length := by
  show maxPathLen fs <
    ((dir ++ "/syncthing") ++ String.mk (List.replicate (maxPathLen fs + 1) '0')).length
  have h2 : (String.mk (List.replicate (maxPathLen fs + 1) '0')).length
      = maxPathLen fs + 1 := by
    simp
  rw [String.length_append, h2]
  omega

theorem fsGet_freshTempName (fs : FS) (dir : String) :
    fsGet fs (freshTempName fs dir) = none := by
  cases h : fsGet fs (freshTempName fs dir) with
  | none => rfl
  | some c =>
    have h1 := fsGet_le_maxPathLen fs _ c h
    have h2 := maxPathLen_lt_freshTempName fs dir
    omega

/-! ## Last-character lemmas separating temp names from backup names -/

theorem lastChar_replicate (n : Nat) (c : Char) :
    (List.replicate (n + 1) c).getLast? = some c := by
  induction n with
  | zero => rfl
  | succ n ih =>
    rw [List.replicate_succ, List.replicate_succ, List.getLast?_cons_cons,
      ← List.replicate_succ]
    exact ih

theorem lastChar_freshTempName (fs : FS) (dir : String) :
    lastChar (freshTempName fs dir) = some '0' := by
  have hne : (String.mk (List.replicate (maxPathLen fs + 1) '0')).data ≠ [] := by
    show List.replicate (maxPathLen fs + 1) '0' ≠ []
    simp
  rw [lastChar, freshTempName, String.data_append, List.getLast?_append_of_ne_nil _ hne]
  exact lastChar_replicate _ '0'

theorem lastChar_dotOld (b : String) : lastChar (b ++ ".old") = some 'd' := by
  have hne : (".old" : String).data ≠ [] := by decide
  rw [lastChar, String.data_append, List.getLast?_append_of_ne_nil _ hne]
  rfl

theorem ne_of_lastChar_ne {s t : String} (h : lastChar s ≠ lastChar t) : s ≠ t :=
  fun he => h (he ▸ rfl)

theorem self_ne_dotOld (b : String) : b ≠ b ++ ".old" := by
  intro he
  have h1 := congrArg String.length he
  rw [String.length_append] at h1
  have h2 : (".old" : String).length = 4 := rfl
  omega

/-! ## Scan invariant -/

theorem fsGrow_refl (fs : FS) : FsGrow fs fs :=
  ⟨fun _ _ h => h, fun _ hne => absurd rfl hne, le_refl _⟩

theorem archiveFileVisitor_inv (fs₀ : FS) (dir temp : String) (sig : Option String)
    (m : Member) (fs : FS) (h : ScanInv fs₀ (temp, sig, fs)) :
    ScanInv fs₀ (archiveFileVisitor dir temp sig m fs) := by
  simp only [archiveFileVisitor, writeBinary]
  split_ifs with h1 h2 h3
  · exact h
  · obtain ⟨⟨hg1, hg2, hg3⟩, _⟩ := h
    have hfresh : fsGet fs (freshTempName fs dir) = none := fsGet_freshTempName fs dir
    have hfs0 : fsGet fs₀ (freshTempName fs dir) = none := by
      cases hc : fsGet fs₀ (freshTempName fs dir) with
      | none => rfl
      | some c =>
        rw [hg1 _ c hc] at hfresh
        exact Option.noConfusion hfresh
    refine ⟨⟨?_, ?_, ?_⟩, Or.inr ⟨lastChar_freshTempName fs dir, hfs0, ?_, ?_⟩⟩
    · intro p c hp
      have hple := hg1 p c hp
      have hpne : freshTempName fs dir ≠ p := by
        intro he
        rw [← he, hfresh] at hple
        exact Option.noConfusion hple
      rw [fsGet_fsSet_ne fs _ _ p hpne]
      exact hple
    · intro p hne
      by_cases hpF : p = freshTempName fs dir
      · subst hpF
        exact ⟨lastChar_freshTempName fs dir, hfs0⟩
      · rw [fsGet_fsSet_ne fs _ _ p (fun he => hpF he.symm)] at hne
        exact hg2 p hne
    · exact le_trans hg3 (le_max_right _ _)
    · exact lt_of_le_of_lt hg3 (maxPathLen_lt_freshTempName fs dir)
    · rw [fsGet_fsSet_self]
      rfl
  · exact h
  · exact h

theorem scanMembers_inv (dir : String) (fs₀ : FS) :
    ∀ (ms : List Member) (i : Nat) (temp : String) (sig : Option String) (fs : FS),
      ScanInv fs₀ (temp, sig, fs) → ScanInv fs₀ (scanMembers dir ms i temp sig fs) := by
  intro ms
  induction ms with
  | nil =>
    intro i temp sig fs h
    rw [scanMembers]
    split
    · exact h
    · exact h
  | cons m rest ih =>
    intro i temp sig fs h
    have hstep : scanMembers dir (m :: rest) i temp sig fs =
        if maxArchiveMembers ≤ i then (temp, sig, fs)
        else if maxBinarySize < m.size then (temp, sig, fs)
        else
          match archiveFileVisitor dir temp sig m fs with
          | (temp', sig', fs') =>
            if temp' ≠ "" ∧ sig'.isSome then (temp', sig', fs')
            else scanMembers dir rest (i + 1) temp' sig' fs' := rfl
    rw [hstep]
    by_cases hcap : maxArchiveMembers ≤ i
    · rw [if_pos hcap]
      exact h
    · rw [if_neg hcap]
      by_cases hsize : maxBinarySize < m.size
      · rw [if_pos hsize]
        exact h
      · rw [if_neg hsize]
        have hv := archiveFileVisitor_inv fs₀ dir temp sig m fs h
        rcases hvis : archiveFileVisitor dir temp sig m fs with ⟨t', s', fs'⟩
        rw [hvis] at hv
        show ScanInv fs₀
          (if t' ≠ "" ∧ s'.isSome then (t', s', fs')
          else scanMembers dir rest (i + 1) t' s' fs')
        by_cases hf : t' ≠ "" ∧ s'.isSome
        · rw [if_pos hf]
          exact hv
        · rw [if_neg hf]
          exact ih (i + 1) t' s' fs' hv

/-! ## Case equations for the verifier -/

theorem verifyUpgrade_empty (verify : String → String → Bool) (archiveName : String)
    (sig : Option String) (fs : FS) :
    verifyUpgrade verify archiveName "" sig fs = (.error .NoUpgradeFound, fs) := rfl

theorem verifyUpgrade_noSig (verify : String → String → Bool) (archiveName tempName : String)
    (fs : FS) (h : tempName ≠ "") :
    verifyUpgrade verify archiveName tempName none fs = (.error .NoSignatureFound, fs) := by
  rw [verifyUpgrade.eq_def, if_neg h]

theorem verifyUpgrade_openFail (verify : String → String → Bool) (archiveName tempName s : String)
    (fs : FS) (h : tempName ≠ "") (hc : fsGet fs tempName = none) :
    verifyUpgrade verify archiveName tempName (some s) fs =
      (.error (.OpenError tempName), fs) := by
  rw [verifyUpgrade.eq_def, if_neg h, hc]

theorem verifyUpgrade_check (verify : String → String → Bool)
    (archiveName tempName s content : String) (fs : FS) (h : tempName ≠ "")
    (hc : fsGet fs tempName = some content) :
    verifyUpgrade verify archiveName tempName (some s) fs =
      if verify s (archiveName ++ "\n" ++ content) then (.ok (), fs)
      else (.error .SignatureInvalid, fsRemove fs tempName) := by
  rw [verifyUpgrade.eq_def, if_neg h, hc]

/-! ## Reader-level filesystem facts -/

theorem readTarGz_readOut (verify : String → String → Bool) (archiveName dir : String)
    (members : List Member) (fs : FS) :
    ReadOut fs (readTarGz verify archiveName dir members fs) := by
  have hscan := scanMembers_inv dir fs members 0 "" none fs ⟨fsGrow_refl fs, Or.inl rfl⟩
  rcases hs : scanMembers dir members 0 "" none fs with ⟨t, s, fsS⟩
  rw [hs] at hscan
  obtain ⟨⟨hg1, hg2, hg3⟩, hT⟩ := hscan
  have hbody : readTarGz verify archiveName dir members fs =
      match verifyUpgrade verify archiveName t s fsS with
      | (.ok _, fs') => (.ok t, fs')
      | (.error e, fs') => (.error e, fs') := by
    rw [readTarGz, hs]
  rw [hbody]
  have herr : ∀ e : UpgradeError, ReadOut fs ((.error e : Except UpgradeError String), fsS) :=
    fun e => ⟨hg1, hg2, fun fname hf => Except.noConfusion hf⟩
  by_cases h1 : t = ""
  · rw [h1, verifyUpgrade_empty]
    exact herr _
  · rcases hT with h' | htok
    · exact absurd h' h1
    cases s with
    | none =>
      rw [verifyUpgrade_noSig verify archiveName t fsS h1]
      exact herr _
    | some sv =>
      cases hc : fsGet fsS t with
      | none =>
        rw [verifyUpgrade_openFail verify archiveName t sv fsS h1 hc]
        exact herr _
      | some content =>
        rw [verifyUpgrade_check verify archiveName t sv content fsS h1 hc]
        by_cases hv : verify sv (archiveName ++ "\n" ++ content)
        · rw [if_pos hv]
          refine ⟨hg1, hg2, ?_⟩
          intro fname hf
          have he : t = fname := by
            injection hf
          subst he
          exact ⟨htok.1, htok.2.1, htok.2.2.2⟩
        · rw [if_neg hv]
          refine ⟨?_, ?_, fun fname hf => Except.noConfusion hf⟩
          · intro p c hp
            have hple := hg1 p c hp
            have hpt : p ≠ t := by
              intro he
              subst he
              rw [htok.2.1] at hp
              exact Option.noConfusion hp
            rw [fsGet_fsRemove_ne t p hpt fsS]
            exact hple
          · intro p hne
            by_cases hpt : p = t
            · subst hpt
              exact ⟨htok.1, htok.2.1⟩
            · rw [fsGet_fsRemove_ne t p hpt fsS] at hne
              exact hg2 p hne

theorem readZip_readOut (verify : String → String → Bool) (archiveName dir : String)
    (members : List Member) (fs : FS) :
    ReadOut fs (readZip verify archiveName dir members fs) :=
  readTarGz_readOut verify archiveName dir members fs

theorem readRelease_eq_readTarGz (verify : String → String → Bool) (goos archiveName dir : String)
    (members : List Member) (fs : FS) :
    readRelease verify goos archiveName dir members fs =
      readTarGz verify archiveName dir members fs := by
  rw [readRelease]
  split_ifs with h
  · rfl
  · rfl

theorem readRelease_readOut (verify : String → String → Bool) (goos archiveName dir : String)
    (members : List Member) (fs : FS) :
    ReadOut fs (readRelease verify goos archiveName dir members fs) := by
  rw [readRelease_eq_readTarGz]
  exact readTarGz_readOut verify archiveName dir members fs

/-- When a reader succeeds, the scan found a non-empty temp binary and a
signature, the temp file exists, the verification oracle accepted the
payload built from the archive name, a newline and the temp contents, and
the filesystem is exactly the scan's filesystem. -/
theorem readTarGz_ok_verify (verify : String → String → Bool) (archiveName dir : String)
    (members : List Member) (fs : FS) (fname : String) (fsR : FS)
    (h : readTarGz verify archiveName dir members fs = (.ok fname, fsR)) :
    ∃ s fsS c, scanMembers dir members 0 "" none fs = (fname, some s, fsS) ∧ fname ≠ "" ∧
      fsGet fsS fname = some c ∧ verify s (archiveName ++ "\n" ++ c) = true ∧ fsR = fsS := by
  rcases hs : scanMembers dir members 0 "" none fs with ⟨t, s, fsS⟩
  have hbody : readTarGz verify archiveName dir members fs =
      match verifyUpgrade verify archiveName t s fsS with
      | (.ok _, fs') => (.ok t, fs')
      | (.error e, fs') => (.error e, fs') := by
    rw [readTarGz, hs]
  rw [hbody] at h
  by_cases h1 : t = ""
  · rw [h1, verifyUpgrade_empty] at h
    simp at h
  · cases s with
    | none =>
      rw [verifyUpgrade_noSig verify archiveName t fsS h1] at h
      simp at h
    | some sv =>
      cases hc : fsGet fsS t with
      | none =>
        rw [verifyUpgrade_openFail verify archiveName t sv fsS h1 hc] at h
        simp at h
      | some content =>
        rw [verifyUpgrade_check verify archiveName t sv content fsS h1 hc] at h
        by_cases hv : verify sv (archiveName ++ "\n" ++ content)
        · rw [if_pos hv] at h
          have h2 : t = fname := by
            have := congrArg Prod.fst h
            simpa using this
          have h3 : fsS = fsR := by
            have := congrArg Prod.snd h
            simpa using this
          subst h2
          subst h3
          exact ⟨sv, fsS, content, rfl, h1, hc, hv, rfl⟩
        · rw [if_neg hv] at h
          simp at h

/-! ## Scan preservation lemmas for the member cap and nesting rules -/

theorem archiveFileVisitor_temp_of_deep (dir temp : String) (sig : Option String)
    (m : Member) (fs : FS)
    (h : (goBase m.path = "syncthing" ∨ goBase m.path = "syncthing.exe") →
      1 < (splitOnChar '/' (goDir m.path).data).length) :
    (archiveFileVisitor dir temp sig m fs).1 = temp := by
  simp only [archiveFileVisitor]
  by_cases h1 : goBase m.path = "syncthing" ∨ goBase m.path = "syncthing.exe"
  · rw [if_pos h1, if_pos (h h1)]
  · rw [if_neg h1]
    by_cases h3 : goBase m.path = "release.sig"
    · rw [if_pos h3]
    · rw [if_neg h3]

theorem archiveFileVisitor_sig_of_other (dir temp : String) (sig : Option String)
    (m : Member) (fs : FS) (h : goBase m.path ≠ "release.sig") :
    (archiveFileVisitor dir temp sig m fs).2.1 = sig := by
  simp only [archiveFileVisitor]
  by_cases h1 : goBase m.path = "syncthing" ∨ goBase m.path = "syncthing.exe"
  · rw [if_pos h1]
    by_cases h2 : 1 < (splitOnChar '/' (goDir m.path).data).length
    · rw [if_pos h2]
    · rw [if_neg h2]
  · rw [if_neg h1, if_neg h]

/-- The scan never records a temp binary when every binary-named member
among the first `maxArchiveMembers - i` remaining members is nested more
than one directory deep; members past the cap are never considered. -/
theorem scanMembers_temp_preserve (dir : String) :
    ∀ (ms : List Member) (i : Nat) (temp : String) (sig : Option String) (fs : FS),
      (∀ m ∈ ms.take (maxArchiveMembers - i),
        (goBase m.path = "syncthing" ∨ goBase m.path = "syncthing.exe") →
          1 < (splitOnChar '/' (goDir m.path).data).length) →
      (scanMembers dir ms i temp sig fs).1 = temp := by
  intro ms
  induction ms with
  | nil =>
    intro i temp sig fs _
    rw [scanMembers]
    split
    · rfl
    · rfl
  | cons m rest ih =>
    intro i temp sig fs h
    have hstep : scanMembers dir (m :: rest) i temp sig fs =
        if maxArchiveMembers ≤ i then (temp, sig, fs)
        else if maxBinarySize < m.size then (temp, sig, fs)
        else
          match archiveFileVisitor dir temp sig m fs with
          | (temp', sig', fs') =>
            if temp' ≠ "" ∧ sig'.isSome then (temp', sig', fs')
            else scanMembers dir rest (i + 1) temp' sig' fs' := rfl
    rw [hstep]
    by_cases hcap : maxArchiveMembers ≤ i
    · rw [if_pos hcap]
    · rw [if_neg hcap]
      have htk : maxArchiveMembers - i = (maxArchiveMembers - (i + 1)) + 1 := by omega
      rw [htk, List.take_succ_cons] at h
      have hm := h m (List.mem_cons_self m _)
      have hrest := fun m' hm' => h m' (List.mem_cons_of_mem _ hm')
      by_cases hsize : maxBinarySize < m.size
      · rw [if_pos hsize]
      · rw [if_neg hsize]
        have hv1 : (archiveFileVisitor dir temp sig m fs).1 = temp :=
          archiveFileVisitor_temp_of_deep dir temp sig m fs hm
        rcases hvis : archiveFileVisitor dir temp sig m fs with ⟨t', s', fs'⟩
        rw [hvis] at hv1
        have hv1' : t' = temp := hv1
        subst hv1'
        show (if t' ≠ "" ∧ s'.isSome then (t', s', fs')
          else scanMembers dir rest (i + 1) t' s' fs').1 = t'
        by_cases hf : t' ≠ "" ∧ s'.isSome
        · rw [if_pos hf]
        · rw [if_neg hf]
          exact ih (i + 1) t' s' fs' hrest

/-- The scan never records a signature when no member named `release.sig`
occurs among the first `maxArchiveMembers - i` remaining members; members
past the cap are never considered. -/
theorem scanMembers_sig_preserve (dir : String) :
    ∀ (ms : List Member) (i : Nat) (temp : String) (sig : Option String) (fs : FS),
      (∀ m ∈ ms.take (maxArchiveMembers - i), goBase m.path ≠ "release.sig") →
      (scanMembers dir ms i temp sig fs).2.1 = sig := by
  intro ms
  induction ms with
  | nil =>
    intro i temp sig fs _
    rw [scanMembers]
    split
    · rfl
    · rfl
  | cons m rest ih =>
    intro i temp sig fs h
    have hstep : scanMembers dir (m :: rest) i temp sig fs =
        if maxArchiveMembers ≤ i then (temp, sig, fs)
        else if maxBinarySize < m.size then (temp, sig, fs)
        else
          match archiveFileVisitor dir temp sig m fs with
          | (temp', sig', fs') =>
            if temp' ≠ "" ∧ sig'.isSome then (temp', sig', fs')
            else scanMembers dir rest (i + 1) temp' sig' fs' := rfl
    rw [hstep]
    by_cases hcap : maxArchiveMembers ≤ i
    · rw [if_pos hcap]
    · rw [if_neg hcap]
      have htk : maxArchiveMembers - i = (maxArchiveMembers - (i + 1)) + 1 := by omega
      rw [htk, List.take_succ_cons] at h
      have hm := h m (List.mem_cons_self m _)
      have hrest := fun m' hm' => h m' (List.mem_cons_of_mem _ hm')
      by_cases hsize : maxBinarySize < m.size
      · rw [if_pos hsize]
      · rw [if_neg hsize]
        have hv2 : (archiveFileVisitor dir temp sig m fs).2.1 = sig :=
          archiveFileVisitor_sig_of_other dir temp sig m fs hm
        rcases hvis : archiveFileVisitor dir temp sig m fs with ⟨t', s', fs'⟩
        rw [hvis] at hv2
        have hv2' : s' = sig := hv2
        subst hv2'
        show (if t' ≠ "" ∧ s'.isSome then (t', s', fs')
          else scanMembers dir rest (i + 1) t' s' fs').2.1 = s'
        by_cases hf : t' ≠ "" ∧ s'.isSome
        · rw [if_pos hf]
        · rw [if_neg hf]
          exact ih (i + 1) t' s' fs' hrest

/-! ## Selection scan characterisation -/

theorem selectScan_eq_find (relName : String → String) (beta : Bool) :
    ∀ l : List Release, selectScan relName beta l =
      match l.find? (eligMatch relName beta) with
      | some r => .ok r
      | none => .error .NoReleaseDownload := by
  intro l
  induction l with
  | nil => rfl
  | cons rel rest ih =>
    have hstep : selectScan relName beta (rel :: rest) =
        if rel.prerelease && !beta then selectScan relName beta rest
        else if rel.assets.any (fun a => strStartsWith (goBase a.name) (relName rel.tag)) then
          .ok rel
        else selectScan relName beta rest := rfl
    by_cases h1 : rel.prerelease && !beta
    · have he : eligMatch relName beta rel = false := by
        simp [eligMatch, h1]
      rw [hstep, if_pos h1, ih, List.find?_cons_of_neg _ (by simp [he])]
    · have h1' : (rel.prerelease && !beta) = false := by
        simp only [Bool.not_eq_true] at h1
        exact h1
      by_cases h2 : rel.assets.any (fun a => strStartsWith (goBase a.name) (relName rel.tag))
      · have he : eligMatch relName beta rel = true := by
          simp [eligMatch, h1', h2]
        rw [hstep, if_neg h1, if_pos h2, List.find?_cons_of_pos _ he]
      · have h2' : rel.assets.any (fun a => strStartsWith (goBase a.name) (relName rel.tag))
            = false := by
          simp only [Bool.not_eq_true] at h2
          exact h2
        have he : eligMatch relName beta rel = false := by
          simp [eligMatch, h1', h2']
        rw [hstep, if_neg h1, if_neg h2, ih, List.find?_cons_of_neg _ (by simp [he])]

/-- In a `Pairwise R` list, everything satisfying `p` other than the first
hit of `find? p` is `R`-below that first hit. -/
theorem find?_max_of_pairwise {α : Type} {R : α → α → Prop} {p : α → Bool} :
    ∀ {l : List α} {r : α}, l.Pairwise R → l.find? p = some r →
      ∀ r' ∈ l, p r' = true → r' = r ∨ R r r' := by
  intro l
  induction l with
  | nil =>
    intro r _ hf
    exact absurd hf (by simp)
  | cons a t ih =>
    intro r hp hf r' hr' hpr'
    cases hpa : p a with
    | true =>
      rw [List.find?_cons_of_pos t hpa] at hf
      injection hf with he
      subst he
      rcases List.mem_cons.mp hr' with h' | h'
      · exact Or.inl h'
      · exact Or.inr ((List.pairwise_cons.mp hp).1 r' h')
    | false =>
      rw [List.find?_cons_of_neg t (by simp [hpa])] at hf
      rcases List.mem_cons.mp hr' with h' | h'
      · subst h'
        rw [hpa] at hpr'
        exact absurd hpr' (by simp)
      · exact ih (List.pairwise_cons.mp hp).2 hf r' h' hpr'

/-! ## Claim theorems -/

/-- C2: for every archive name, temp binary file and signature,
`verifyUpgrade` checks the detached signature against exactly the payload
made of the literal archive name, one newline character and the full
content of the temp binary file, for every signature-verification
primitive `verify` (which abstracts `signature.Verify` applied to the
compiled-in `SigningKey`): verification succeeds exactly when the
primitive accepts that payload and fails with `SignatureInvalid` exactly
when it rejects it. -/
theorem C2_verify_payload (verify : String → String → Bool)
    (archiveName tempName s content : String) (fs : FS)
    (ht : tempName ≠ "") (hc : fsGet fs tempName = some content) :
    ((verifyUpgrade verify archiveName tempName (some s) fs).1 = .ok () ↔
      verify s (archiveName ++ "\n" ++ content) = true) ∧
    ((verifyUpgrade verify archiveName tempName (some s) fs).1 = .error .SignatureInvalid ↔
      verify s (archiveName ++ "\n" ++ content) = false) := by
  rw [verifyUpgrade_check verify archiveName tempName s content fs ht hc]
  by_cases hv : verify s (archiveName ++ "\n" ++ content)
  · rw [if_pos hv]
    refine ⟨⟨fun _ => hv, fun _ => rfl⟩, ?_, ?_⟩
    · intro h2
      exact Except.noConfusion h2
    · intro h2
      rw [hv] at h2
      exact Bool.noConfusion h2
  · rw [if_neg hv]
    have hv' : verify s (archiveName ++ "\n" ++ content) = false := by
      simp only [Bool.not_eq_true] at hv
      exact hv
    refine ⟨⟨?_, ?_⟩, fun _ => hv', fun _ => rfl⟩
    · intro h2
      exact Except.noConfusion h2
    · intro h2
      rw [hv'] at h2
      exact Bool.noConfusion h2

theorem C2_witness :
    ((verifyUpgrade (fun _ pay => pay == "a\nBIN") "a" "t" (some "s")
        [( "t", "BIN")]).1 = .ok () ↔
      (fun _ pay => pay == "a\nBIN") "s" ( "a" ++ "\n" ++ "BIN") = true) ∧
    ((verifyUpgrade (fun _ pay => pay == "a\nBIN") "a" "t" (some "s")
        [( "t", "BIN")]).1 = .error .SignatureInvalid ↔
      (fun _ pay => pay == "a\nBIN") "s" ( "a" ++ "\n" ++ "BIN") = false) :=
  C2_verify_payload (fun _ pay => pay == "a\nBIN") "a" "t" "s" "BIN" [( "t", "BIN")]
    (by decide) rfl

/-- C7: `verifyUpgrade` fails with `NoUpgradeFound` when no binary was
located and with `NoSignatureFound` when no signature was located, leaving
the filesystem (and so any temp artifact) untouched in both cases; it
deletes the temp binary file, and only it, exactly when the signature
check itself fails with `SignatureInvalid`; on successful verification it
leaves the filesystem unchanged. -/
theorem C7_verify_errors (verify : String → String → Bool) (archiveName tempName : String)
    (sig : Option String) (fs : FS) :
    (tempName = "" →
      verifyUpgrade verify archiveName tempName sig fs = (.error .NoUpgradeFound, fs)) ∧
    (tempName ≠ "" → sig = none →
      verifyUpgrade verify archiveName tempName sig fs = (.error .NoSignatureFound, fs)) ∧
    (∀ s content, tempName ≠ "" → sig = some s → fsGet fs tempName = some content →
      (verify s (archiveName ++ "\n" ++ content) = true →
        verifyUpgrade verify archiveName tempName sig fs = (.ok (), fs)) ∧
      (verify s (archiveName ++ "\n" ++ content) = false →
        verifyUpgrade verify archiveName tempName sig fs =
            (.error .SignatureInvalid, fsRemove fs tempName) ∧
          fsGet (fsRemove fs tempName) tempName = none ∧
          ∀ p, p ≠ tempName → fsGet (fsRemove fs tempName) p = fsGet fs p)) := by
  refine ⟨?_, ?_, ?_⟩
  · intro h1
    subst h1
    exact verifyUpgrade_empty verify archiveName sig fs
  · intro h1 h2
    subst h2
    exact verifyUpgrade_noSig verify archiveName tempName fs h1
  · intro s content h1 h2 hc
    subst h2
    rw [verifyUpgrade_check verify archiveName tempName s content fs h1 hc]
    constructor
    · intro hv
      rw [if_pos hv]
    · intro hv
      rw [if_neg (by simp [hv])]
      exact ⟨rfl, fsGet_fsRemove_self tempName fs,
        fun p hp => fsGet_fsRemove_ne tempName p hp fs⟩

theorem C7_witness :
    verifyUpgrade (fun _ _ => true) "a" "" none [] = (.error .NoUpgradeFound, []) ∧
    verifyUpgrade (fun _ _ => true) "a" "t" none [( "t", "B")] =
      (.error .NoSignatureFound, [( "t", "B")]) ∧
    verifyUpgrade (fun _ _ => true) "a" "t" (some "s") [( "t", "B")] = (.ok (), [( "t", "B")]) ∧
    verifyUpgrade (fun _ _ => false) "a" "t" (some "s") [( "t", "B")] =
      (.error .SignatureInvalid, fsRemove [( "t", "B")] "t") ∧
    fsGet (fsRemove [( "t", "B")] "t") "t" = none :=
  ⟨(C7_verify_errors (fun _ _ => true) "a" "" none []).1 rfl,
   (C7_verify_errors (fun _ _ => true) "a" "t" none [( "t", "B")]).2.1 (by decide) rfl,
   ((C7_verify_errors (fun _ _ => true) "a" "t" (some "s") [( "t", "B")]).2.2 "s" "B"
      (by decide) rfl rfl).1 rfl,
   (((C7_verify_errors (fun _ _ => false) "a" "t" (some "s") [( "t", "B")]).2.2 "s" "B"
      (by decide) rfl rfl).2 rfl).1,
   (((C7_verify_errors (fun _ _ => false) "a" "t" (some "s") [( "t", "B")]).2.2 "s" "B"
      (by decide) rfl rfl).2 rfl).2.1⟩

/-- C8 (counterexample): the Go code discards `Decode`'s error and returns
`rels` as-is, so with a decode oracle behaving like encoding/json on the
body `[1]` — reporting failure after best-effort populating one zero-valued
element — `FetchLatestReleases` returns a non-empty sequence on a metadata
decode failure.  This refutes the claim that every decode failure yields
the empty sequence, indistinguishable from a successful fetch of zero
releases. -/
theorem C8_counterexample :
    (decodeFailsPartial "[1]").1 = true ∧
    FetchLatestReleases decodeFailsPartial (some (200, "[1]")) = [relZero] ∧
    FetchLatestReleases decodeFailsPartial (some (200, "[1]")) ≠ [] := by
  refine ⟨rfl, by decide, by decide⟩

/-- C8 (amended): `FetchLatestReleases` returns the empty sequence on every
transport failure and on every HTTP status above 299, raising no error; on
a metadata decode failure it likewise raises no error but returns whatever
the best-effort decode left in `rels` — the empty sequence exactly when
decoding populated nothing — so a decode failure is indistinguishable from
a successful fetch that decoded that same sequence. -/
theorem C8_fetch_degrades (decode : String → Bool × List Release)
    (resp : Option (Nat × String)) :
    (resp = none → FetchLatestReleases decode resp = []) ∧
    (∀ st body, resp = some (st, body) → 299 < st →
      FetchLatestReleases decode resp = []) ∧
    (∀ st body, resp = some (st, body) → ¬ 299 < st →
      FetchLatestReleases decode resp = (decode (strTake body maxMetadataSize)).2) ∧
    (∀ st body, resp = some (st, body) → ¬ 299 < st →
      (decode (strTake body maxMetadataSize)).2 = [] →
      FetchLatestReleases decode resp = []) := by
  refine ⟨?_, ?_, ?_, ?_⟩
  · intro h
    subst h
    rfl
  · intro st body h hst
    subst h
    show (if 299 < st then [] else (decode (strTake body maxMetadataSize)).2) = []
    rw [if_pos hst]
  · intro st body h hst
    subst h
    show (if 299 < st then [] else (decode (strTake body maxMetadataSize)).2)
        = (decode (strTake body maxMetadataSize)).2
    rw [if_neg hst]
  · intro st body h hst hd
    subst h
    show (if 299 < st then [] else (decode (strTake body maxMetadataSize)).2) = []
    rw [if_neg hst, hd]

theorem C8_witness :
    FetchLatestReleases (fun _ => (false, [relA])) none = [] ∧
    FetchLatestReleases (fun _ => (false, [relA])) (some (500, "x")) = [] ∧
    FetchLatestReleases decodeFailsPartial (some (200, "x")) = [relZero] ∧
    FetchLatestReleases (fun _ => (true, [])) (some (200, "x")) = [] :=
  ⟨(C8_fetch_degrades (fun _ => (false, [relA])) none).1 rfl,
   (C8_fetch_degrades (fun _ => (false, [relA])) (some (500, "x"))).2.1 500 "x" rfl (by decide),
   (C8_fetch_degrades decodeFailsPartial (some (200, "x"))).2.2.1 200 "x" rfl (by decide),
   (C8_fetch_degrades (fun _ => (true, [])) (some (200, "x"))).2.2.2 200 "x" rfl (by decide) rfl⟩

/-- C4 (counterexample): a member named `syncthing` that resides inside a
subdirectory (`subdir/syncthing`, one level deep) IS written to a temp
file, and the tar.gz reader promotes it, because the code only skips
members whose containing directory splits into more than one component;
this refutes the claim that a matching member inside any subdirectory
never produces a temp binary. -/
theorem C4_counterexample :
    (archiveFileVisitor "d" "" none ⟨ "subdir/syncthing", 4, "BIN"⟩ []).1 = "d/syncthing0" ∧
    readTarGz (fun _ _ => true) "arch" "d"
        [⟨ "subdir/syncthing", 4, "BIN"⟩, ⟨ "release.sig", 3, "SIG"⟩] [] =
      (.ok "d/syncthing0", [( "d/syncthing0", "BIN")]) := by
  constructor
  · decide
  · decide

/-- C4 (amended): a member whose base name equals the platform binary name
is written to a temp file only if its containing directory splits into at
most one slash-separated component (top level or exactly one directory
deep); members nested two or more directories deep are skipped entirely,
and when every binary-named member is so nested the scan produces no temp
binary and extraction fails with `NoUpgradeFound`. -/
theorem C4_amended (dir temp : String) (sig : Option String) (m : Member) (fs : FS)
    (verify : String → String → Bool) (archiveName : String) (members : List Member) :
    ((goBase m.path = "syncthing" ∨ goBase m.path = "syncthing.exe") →
      1 < (splitOnChar '/' (goDir m.path).data).length →
      archiveFileVisitor dir temp sig m fs = (temp, sig, fs)) ∧
    ((archiveFileVisitor dir temp sig m fs).1 ≠ temp →
      (goBase m.path = "syncthing" ∨ goBase m.path = "syncthing.exe") ∧
        ¬ 1 < (splitOnChar '/' (goDir m.path).data).length) ∧
    ((∀ m' ∈ members,
        (goBase m'.path = "syncthing" ∨ goBase m'.path = "syncthing.exe") →
          1 < (splitOnChar '/' (goDir m'.path).data).length) →
      (scanMembers dir members 0 "" none fs).1 = "" ∧
      (readTarGz verify archiveName dir members fs).1 = .error .NoUpgradeFound) := by
  refine ⟨?_, ?_, ?_⟩
  · intro h1 h2
    simp only [archiveFileVisitor]
    rw [if_pos h1, if_pos h2]
  · intro hch
    by_cases h1 : goBase m.path = "syncthing" ∨ goBase m.path = "syncthing.exe"
    · by_cases h2 : 1 < (splitOnChar '/' (goDir m.path).data).length
      · exfalso
        apply hch
        simp only [archiveFileVisitor]
        rw [if_pos h1, if_pos h2]
      · exact ⟨h1, h2⟩
    · exfalso
      apply hch
      simp only [archiveFileVisitor]
      by_cases h3 : goBase m.path = "release.sig"
      · rw [if_neg h1, if_pos h3]
      · rw [if_neg h1, if_neg h3]
  · intro h
    have ht := scanMembers_temp_preserve dir members 0 "" none fs
      (fun m' hm' => h m' (List.take_subset _ _ hm'))
    refine ⟨ht, ?_⟩
    rcases hs : scanMembers dir members 0 "" none fs with ⟨t, s, fsS⟩
    rw [hs] at ht
    have hbody : readTarGz verify archiveName dir members fs =
        match verifyUpgrade verify archiveName t s fsS with
        | (.ok _, fs') => (.ok t, fs')
        | (.error e, fs') => (.error e, fs') := by
      rw [readTarGz, hs]
    rw [hbody, show t = "" from ht, verifyUpgrade_empty]

theorem C4_amended_witness :
    archiveFileVisitor "d" "" none ⟨ "a/b/syncthing", 4, "BIN"⟩ [] = ( "", none, []) ∧
    ((goBase "syncthing" = "syncthing" ∨ goBase "syncthing" = "syncthing.exe") ∧
      ¬ 1 < (splitOnChar '/' (goDir "syncthing").data).length) ∧
    (scanMembers "d" [⟨ "a/b/syncthing", 4, "BIN"⟩] 0 "" none []).1 = "" ∧
    (readTarGz (fun _ _ => true) "arch" "d" [⟨ "a/b/syncthing", 4, "BIN"⟩] []).1 =
      .error .NoUpgradeFound :=
  ⟨(C4_amended "d" "" none ⟨ "a/b/syncthing", 4, "BIN"⟩ [] (fun _ _ => true) "arch"
      [⟨ "a/b/syncthing", 4, "BIN"⟩]).1 (by decide) (by decide),
   (C4_amended "d" "" none ⟨ "syncthing", 4, "B"⟩ [] (fun _ _ => true) "arch" []).2.1
      (by decide),
   ((C4_amended "d" "" none ⟨ "a/b/syncthing", 4, "BIN"⟩ [] (fun _ _ => true) "arch"
      [⟨ "a/b/syncthing", 4, "BIN"⟩]).2.2 (by decide)).1,
   ((C4_amended "d" "" none ⟨ "a/b/syncthing", 4, "BIN"⟩ [] (fun _ _ => true) "arch"
      [⟨ "a/b/syncthing", 4, "BIN"⟩]).2.2 (by decide)).2⟩

/-- C6: when every member among the first `maxArchiveMembers` (100) is
neither the platform binary nor the signature, both readers stop at the
cap without finding them and extraction fails with `NoUpgradeFound`; when
the binary is found within the cap but no `release.sig` occurs among the
first 100 members, extraction fails with `NoSignatureFound`.  Members past
the cap are never examined. -/
theorem C6_member_cap (verify : String → String → Bool) (archiveName dir : String)
    (members : List Member) (fs : FS) :
    ((∀ m ∈ members.take maxArchiveMembers,
        goBase m.path ≠ "syncthing" ∧ goBase m.path ≠ "syncthing.exe" ∧
          goBase m.path ≠ "release.sig") →
      (readTarGz verify archiveName dir members fs).1 = .error .NoUpgradeFound ∧
      (readZip verify archiveName dir members fs).1 = .error .NoUpgradeFound) ∧
    ((∀ m ∈ members.take maxArchiveMembers, goBase m.path ≠ "release.sig") →
      (scanMembers dir members 0 "" none fs).1 ≠ "" →
      (readTarGz verify archiveName dir members fs).1 = .error .NoSignatureFound ∧
      (readZip verify archiveName dir members fs).1 = .error .NoSignatureFound) := by
  have hzip : readZip verify archiveName dir members fs
      = readTarGz verify archiveName dir members fs := rfl
  constructor
  · intro h
    have ht := scanMembers_temp_preserve dir members 0 "" none fs
      (fun m' hm' h1 => by
        rcases h m' hm' with ⟨ha, hb, _⟩
        rcases h1 with he | he
        · exact absurd he ha
        · exact absurd he hb)
    have htar : (readTarGz verify archiveName dir members fs).1 = .error .NoUpgradeFound := by
      rcases hs : scanMembers dir members 0 "" none fs with ⟨t, s, fsS⟩
      rw [hs] at ht
      have hbody : readTarGz verify archiveName dir members fs =
          match verifyUpgrade verify archiveName t s fsS with
          | (.ok _, fs') => (.ok t, fs')
          | (.error e, fs') => (.error e, fs') := by
        rw [readTarGz, hs]
      rw [hbody, show t = "" from ht, verifyUpgrade_empty]
    exact ⟨htar, by rw [hzip]; exact htar⟩
  · intro h hne
    have hsig := scanMembers_sig_preserve dir members 0 "" none fs h
    have htar : (readTarGz verify archiveName dir members fs).1 = .error .NoSignatureFound := by
      rcases hs : scanMembers dir members 0 "" none fs with ⟨t, s, fsS⟩
      rw [hs] at hsig hne
      have hs' : s = none := hsig
      subst hs'
      have hbody : readTarGz verify archiveName dir members fs =
          match verifyUpgrade verify archiveName t none fsS with
          | (.ok _, fs') => (.ok t, fs')
          | (.error e, fs') => (.error e, fs') := by
        rw [readTarGz, hs]
      rw [hbody, verifyUpgrade_noSig verify archiveName t fsS hne]
    exact ⟨htar, by rw [hzip]; exact htar⟩

set_option maxHeartbeats 2000000 in
theorem C6_witness :
    ((readTarGz (fun _ _ => true) "arch" "d"
        (List.replicate 100 ⟨ "junk", 1, "x"⟩ ++
          [⟨ "syncthing", 1, "B"⟩, ⟨ "release.sig", 1, "S"⟩]) []).1 =
      .error .NoUpgradeFound) ∧
    ((readTarGz (fun _ _ => true) "arch" "d"
        (⟨ "syncthing", 1, "B"⟩ :: (List.replicate 100 ⟨ "junk", 1, "x"⟩ ++
          [⟨ "release.sig", 1, "S"⟩])) []).1 =
      .error .NoSignatureFound) :=
  ⟨((C6_member_cap (fun _ _ => true) "arch" "d"
      (List.replicate 100 ⟨ "junk", 1, "x"⟩ ++
        [⟨ "syncthing", 1, "B"⟩, ⟨ "release.sig", 1, "S"⟩]) []).1 (by decide)).1,
   ((C6_member_cap (fun _ _ => true) "arch" "d"
      (⟨ "syncthing", 1, "B"⟩ :: (List.replicate 100 ⟨ "junk", 1, "x"⟩ ++
        [⟨ "release.sig", 1, "S"⟩])) []).2 (by decide) (by decide)).1⟩

/-- C3: `SelectLatestRelease` fails with `NoVersionToSelect` exactly when
the input sequence is empty; on a non-empty input sorted by `sortFn` (any
descending-sorted permutation produced by the external comparator `cmp`,
which is the `sort.Sort` contract) a returned release is an input release
that is eligible — prereleases only when the running version contains a
dash — and has an asset whose base name starts with the expected platform
prefix for its tag, and no other eligible matching release compares
strictly higher; it fails with `NoReleaseDownload` exactly when the input
is non-empty and no release is eligible with a matching asset. -/
theorem C3_select_latest (cmp : String → String → Int) (relName : String → String)
    (sortFn : List Release → List Release) (version : String) (rels : List Release)
    (hperm : (sortFn rels).Perm rels)
    (hsort : (sortFn rels).Pairwise (fun a b => cmp b.tag a.tag ≤ 0))
    (hrefl : ∀ t, cmp t t ≤ 0) :
    ((SelectLatestRelease relName sortFn version rels).1 = .error .NoVersionToSelect ↔
      rels = []) ∧
    (∀ r, (SelectLatestRelease relName sortFn version rels).1 = .ok r →
      r ∈ rels ∧ eligMatch relName (containsDash version) r = true ∧
      ∀ r' ∈ rels, eligMatch relName (containsDash version) r' = true →
        cmp r'.tag r.tag ≤ 0) ∧
    ((SelectLatestRelease relName sortFn version rels).1 = .error .NoReleaseDownload ↔
      (rels ≠ [] ∧ ∀ r ∈ rels, eligMatch relName (containsDash version) r = false)) := by
  cases rels with
  | nil =>
    refine ⟨⟨fun _ => rfl, fun _ => rfl⟩, ?_, ?_, ?_⟩
    · intro r hr
      have h' : (Except.error UpgradeError.NoVersionToSelect : Except UpgradeError Release)
          = .ok r := hr
      exact Except.noConfusion h'
    · intro h
      have h' : (Except.error UpgradeError.NoVersionToSelect : Except UpgradeError Release)
          = .error .NoReleaseDownload := h
      injection h' with he
      exact UpgradeError.noConfusion he
    · intro h
      exact absurd rfl h.1
  | cons r0 rest =>
    have hsel : SelectLatestRelease relName sortFn version (r0 :: rest) =
        (selectScan relName (containsDash version) (sortFn (r0 :: rest)),
          sortFn (r0 :: rest)) := rfl
    rw [hsel, selectScan_eq_find]
    cases hf : (sortFn (r0 :: rest)).find? (eligMatch relName (containsDash version)) with
    | some r1 =>
      have hpr1 : eligMatch relName (containsDash version) r1 = true := List.find?_some hf
      have hmem : r1 ∈ sortFn (r0 :: rest) := List.mem_of_find?_eq_some hf
      refine ⟨⟨?_, ?_⟩, ?_, ?_, ?_⟩
      · intro h
        have h' : (Except.ok r1 : Except UpgradeError Release) = .error .NoVersionToSelect := h
        exact Except.noConfusion h'
      · intro h
        exact absurd h (by simp)
      · intro r hr
        have h' : (Except.ok r1 : Except UpgradeError Release) = .ok r := hr
        injection h' with he
        subst he
        refine ⟨hperm.mem_iff.mp hmem, hpr1, ?_⟩
        intro r' hr' hpr'
        have hr'mem : r' ∈ sortFn (r0 :: rest) := hperm.mem_iff.mpr hr'
        rcases find?_max_of_pairwise hsort hf r' hr'mem hpr' with he | hR
        · rw [he]
          exact hrefl _
        · exact hR
      · intro h
        have h' : (Except.ok r1 : Except UpgradeError Release) = .error .NoReleaseDownload := h
        exact Except.noConfusion h'
      · intro h
        have := h.2 r1 (hperm.mem_iff.mp hmem)
        rw [hpr1] at this
        exact Bool.noConfusion this
    | none =>
      have hall : ∀ x ∈ sortFn (r0 :: rest),
          ¬ eligMatch relName (containsDash version) x = true := List.find?_eq_none.mp hf
      refine ⟨⟨?_, ?_⟩, ?_, ?_, ?_⟩
      · intro h
        have h' : (Except.error UpgradeError.NoReleaseDownload : Except UpgradeError Release)
            = .error .NoVersionToSelect := h
        injection h' with he
        exact UpgradeError.noConfusion he
      · intro h
        exact absurd h (by simp)
      · intro r hr
        have h' : (Except.error UpgradeError.NoReleaseDownload : Except UpgradeError Release)
            = .ok r := hr
        exact Except.noConfusion h'
      · intro _
        refine ⟨by simp, ?_⟩
        intro r hr
        have hm : r ∈ sortFn (r0 :: rest) := hperm.mem_iff.mpr hr
        have hnr := hall r hm
        cases hb : eligMatch relName (containsDash version) r with
        | false => rfl
        | true => exact absurd hb hnr
      · intro _
        rfl

theorem C3_witness :
    ((SelectLatestRelease relNameId (fun l => l) "v0" [relA, relB]).1 =
        .error .NoVersionToSelect ↔ ([relA, relB] : List Release) = []) ∧
    relA ∈ [relA, relB] ∧
    eligMatch relNameId (containsDash "v0") relA = true ∧
    cmpZero relA.tag relA.tag ≤ 0 :=
  have h := C3_select_latest cmpZero relNameId (fun l => l) "v0" [relA, relB]
    (List.Perm.refl _) (by decide) (fun _ => le_refl 0)
  have h2 := h.2.1 relA (by decide)
  ⟨h.1, h2.1, h2.2.1, h2.2.2 relA h2.1 h2.2.1⟩

/-- C10: `SelectLatestRelease` reorders the caller's release slice in
place: for every input of at least two releases, after any call the
caller-visible slice (the second component of the model's result, standing
for the mutated Go slice) is exactly the sorted slice — a permutation of
the input in descending comparator order — regardless of which result the
call returned. -/
theorem C10_select_mutates (cmp : String → String → Int) (relName : String → String)
    (sortFn : List Release → List Release) (version : String) (rels : List Release)
    (hperm : (sortFn rels).Perm rels)
    (hsort : (sortFn rels).Pairwise (fun a b => cmp b.tag a.tag ≤ 0))
    (h2 : 2 ≤ rels.length) :
    (SelectLatestRelease relName sortFn version rels).2 = sortFn rels ∧
    (SelectLatestRelease relName sortFn version rels).2.Perm rels ∧
    (SelectLatestRelease relName sortFn version rels).2.Pairwise
      (fun a b => cmp b.tag a.tag ≤ 0) := by
  cases rels with
  | nil => exact absurd h2 (by decide)
  | cons r0 rest =>
    have hsel : (SelectLatestRelease relName sortFn version (r0 :: rest)).2
        = sortFn (r0 :: rest) := rfl
    rw [hsel]
    exact ⟨rfl, hperm, hsort⟩

theorem C10_witness :
    (SelectLatestRelease relNameId (fun l => l.reverse) "v0" [relB, relA]).2 = [relA, relB] ∧
    (SelectLatestRelease relNameId (fun l => l.reverse) "v0" [relB, relA]).2.Perm
      [relB, relA] ∧
    (SelectLatestRelease relNameId (fun l => l.reverse) "v0" [relB, relA]).2.Pairwise
      (fun a b => cmpZero b.tag a.tag ≤ 0) :=
  C10_select_mutates cmpZero relNameId (fun l => l.reverse) "v0" [relB, relA]
    (by decide) (by decide) (by decide)

/-- C1: `upgradeToURL` modifies the target binary path or changes the
`.old` backup path only if extraction located both the binary member and
the signature member and signature verification of the name-bound payload
succeeded; on every error returned by `readRelease` (among them
`NoUpgradeFound`, `NoSignatureFound` and `SignatureInvalid`) it returns
that error with the target binary's content unchanged and the `.old` path
exactly as it was, so no backup is created. -/
theorem C1_upgradeToURL_gating (verify renameFail : String → String → Bool)
    (goos archiveName binary : String) (members : List Member) (fs : FS) (bc : String)
    (hb : fsGet fs binary = some bc) :
    (∀ e fsR, readRelease verify goos archiveName (goDir binary) members fs = (.error e, fsR) →
      upgradeToURL verify renameFail goos archiveName binary members fs = (.error e, fsR) ∧
      fsGet fsR binary = some bc ∧
      fsGet fsR (binary ++ ".old") = fsGet fs (binary ++ ".old")) ∧
    (∀ res fs', upgradeToURL verify renameFail goos archiveName binary members fs = (res, fs') →
      (fsGet fs' binary ≠ some bc ∨
        fsGet fs' (binary ++ ".old") ≠ fsGet fs (binary ++ ".old")) →
      ∃ t s fsS c, scanMembers (goDir binary) members 0 "" none fs = (t, some s, fsS) ∧
        t ≠ "" ∧ fsGet fsS t = some c ∧ verify s (archiveName ++ "\n" ++ c) = true) := by
  have hro := readRelease_readOut verify goos archiveName (goDir binary) members fs
  constructor
  · intro e fsR hre
    rw [hre] at hro
    refine ⟨?_, hro.1 binary bc hb, ?_⟩
    · rw [upgradeToURL.eq_def, hre]
    · by_cases hch : fsGet fsR (binary ++ ".old") = fsGet fs (binary ++ ".old")
      · exact hch
      · exfalso
        have h2 := hro.2.1 (binary ++ ".old") hch
        have h3 := lastChar_dotOld binary
        rw [h3] at h2
        exact absurd h2.1 (by decide)
  · intro res fs' hup hchange
    rcases hrr : readRelease verify goos archiveName (goDir binary) members fs with ⟨rr, fsR⟩
    cases rr with
    | error e =>
      exfalso
      have hu2 : upgradeToURL verify renameFail goos archiveName binary members fs
          = (.error e, fsR) := by
        rw [upgradeToURL.eq_def, hrr]
      rw [hup] at hu2
      have hfs' : fs' = fsR := congrArg Prod.snd hu2
      subst hfs'
      rw [hrr] at hro
      rcases hchange with hc1 | hc2
      · exact hc1 (hro.1 binary bc hb)
      · apply hc2
        by_cases hch : fsGet fs' (binary ++ ".old") = fsGet fs (binary ++ ".old")
        · exact hch
        · exfalso
          have h2 := hro.2.1 (binary ++ ".old") hch
          have h3 := lastChar_dotOld binary
          rw [h3] at h2
          exact absurd h2.1 (by decide)
    | ok fname =>
      have hrt : readTarGz verify archiveName (goDir binary) members fs = (.ok fname, fsR) := by
        rw [← readRelease_eq_readTarGz verify goos archiveName (goDir binary) members fs]
        exact hrr
      obtain ⟨s, fsS, c, hscan, hne, hcontent, hv, _⟩ :=
        readTarGz_ok_verify verify archiveName (goDir binary) members fs fname fsR hrt
      exact ⟨fname, s, fsS, c, hscan, hne, hcontent, hv⟩

theorem C1_witness :
    upgradeToURL (fun _ _ => true) (fun _ _ => false) "linux" "a" "b" [] [( "b", "OLD")] =
        (.error .NoUpgradeFound, [( "b", "OLD")]) ∧
      fsGet [( "b", "OLD")] "b" = some "OLD" ∧
      fsGet [( "b", "OLD")] ( "b" ++ ".old") = fsGet [( "b", "OLD")] ( "b" ++ ".old") :=
  (C1_upgradeToURL_gating (fun _ _ => true) (fun _ _ => false) "linux" "a" "b" []
      [( "b", "OLD")] "OLD" rfl).1 .NoUpgradeFound [( "b", "OLD")] rfl

/-- C9: when the rename of the current binary to its `.old` backup path
fails, `upgradeToURL` aborts returning that error; the running binary still
has its original content at its original path, and the verified temp
artifact is still present on disk — the promotion rename onto the target
path has not happened, as it is attempted only after the backup rename
succeeds. -/
theorem C9_backup_rename_abort (verify renameFail : String → String → Bool)
    (goos archiveName binary : String) (members : List Member) (fs : FS)
    (bc fname : String) (fsR : FS) (e : UpgradeError)
    (hb : fsGet fs binary = some bc)
    (hread : readRelease verify goos archiveName (goDir binary) members fs = (.ok fname, fsR))
    (hfail : osRename renameFail (fsRemove fsR (binary ++ ".old")) binary (binary ++ ".old")
      = .error e) :
    upgradeToURL verify renameFail goos archiveName binary members fs =
        (.error e, fsRemove fsR (binary ++ ".old")) ∧
      fsGet (fsRemove fsR (binary ++ ".old")) binary = some bc ∧
      (fsGet (fsRemove fsR (binary ++ ".old")) fname).isSome = true := by
  have hro := readRelease_readOut verify goos archiveName (goDir binary) members fs
  rw [hread] at hro
  have hfR : fsGet fsR binary = some bc := hro.1 binary bc hb
  have hfname := hro.2.2 fname rfl
  have hfo : fname ≠ binary ++ ".old" :=
    ne_of_lastChar_ne (by rw [hfname.1, lastChar_dotOld]; decide)
  have hbo : binary ≠ binary ++ ".old" := self_ne_dotOld binary
  refine ⟨?_, ?_, ?_⟩
  · rw [upgradeToURL.eq_def, hread]
    show (match osRename renameFail (fsRemove fsR (binary ++ ".old")) binary
        (binary ++ ".old") with
      | .error e' => ((.error e' : Except UpgradeError Unit), fsRemove fsR (binary ++ ".old"))
      | .ok fs2 =>
        match osRename renameFail fs2 fname binary with
        | .error e' => (.error e', fs2)
        | .ok fs3 => (.ok (), fs3)) = (.error e, fsRemove fsR (binary ++ ".old"))
    rw [hfail]
  · rw [fsGet_fsRemove_ne (binary ++ ".old") binary hbo fsR]
    exact hfR
  · rw [fsGet_fsRemove_ne (binary ++ ".old") fname hfo fsR]
    exact hfname.2.2

theorem C9_witness :
    upgradeToURL (fun _ _ => true) (fun src _ => src == "b") "linux" "a" "b"
        [⟨ "syncthing", 3, "NEW"⟩, ⟨ "release.sig", 1, "S"⟩] [( "b", "OLD")] =
        (.error (.RenameError "b" ( "b" ++ ".old")),
          fsRemove [( "./syncthing00", "NEW"), ( "b", "OLD")] ( "b" ++ ".old")) ∧
      fsGet (fsRemove [( "./syncthing00", "NEW"), ( "b", "OLD")] ( "b" ++ ".old")) "b" =
        some "OLD" ∧
      (fsGet (fsRemove [( "./syncthing00", "NEW"), ( "b", "OLD")] ( "b" ++ ".old"))
        "./syncthing00").isSome = true :=
  C9_backup_rename_abort (fun _ _ => true) (fun src _ => src == "b") "linux" "a" "b"
    [⟨ "syncthing", 3, "NEW"⟩, ⟨ "release.sig", 1, "S"⟩] [( "b", "OLD")] "OLD" "./syncthing00"
    [( "./syncthing00", "NEW"), ( "b", "OLD")] (.RenameError "b" ( "b" ++ ".old"))
    rfl (by decide) (by decide)

end Upgrade
